import Mathlib

/-
Verification of the progress-sample store of the empath-fullstack repository.

The definitions below are a shallow embedding of
`src/backend/src/services/storage.service.ts` (class `StorageService`),
`src/backend/src/types` (`QueueItem`, `ProgressRecord`) and the route layer
`src/backend/src/index.ts`.

Modelling decisions:
- JS `Map<string, _>` is modelled as an insertion-ordered association list
  `List (String × _)`; `Map.get` is `lookupA`, `Map.set` is `insertA`
  (replace in place if present, append otherwise), and `for (const e of map)`
  is a fold over the list, matching JS `Map` iteration order.
- JS numbers carrying `progressSeconds` / `furthestSeconds` are modelled as
  `Rat` (the code only compares them and takes maxima; non-finite values are
  not representable through the JSON request path).
- Nondeterministic inputs of the code (`Date.now`-based ids, ISO timestamps)
  are passed in as explicit `String` parameters; they are never inspected.
- Disk I/O is modelled explicitly: `saveToDisk` takes failure flags for the
  two `writeFileSync` calls, `loadFromDisk` takes the outcome of
  `existsSync` + `readFileSync`/`JSON.parse` for each of the two files.
-/

namespace Empath

/-- Model of `QueueItem` from `src/backend/src/types`: one enqueued sample. -/
structure QueueItem where
  id : String
  videoId : String
  userId : String
  progressSeconds : Rat
  createdAt : String
deriving DecidableEq

/-- Model of `ProgressRecord` from `src/backend/src/types`: one committed row. -/
structure ProgressRecord where
  videoId : String
  userId : String
  furthestSeconds : Rat
  updatedAt : String
deriving DecidableEq

/-- `Map.get`: first value stored under key `k`, if any. -/
def lookupA {α : Type} : List (String × α) → String → Option α
  | [], _ => none
  | p :: ps, k => if p.1 = k then some p.2 else lookupA ps k

/-- `Map.set`: replace the entry for `k` in place if present, else append. -/
def insertA {α : Type} : List (String × α) → String → α → List (String × α)
  | [], k, v => [(k, v)]
  | p :: ps, k, v => if p.1 = k then (k, v) :: ps else p :: insertA ps k v

/-- The composite key of `storage.service.ts`: `` `${userId}-${videoId}` ``. -/
def makeKey (userId videoId : String) : String :=
  userId ++ "-" ++ videoId

/-- Model of JS `String.prototype.split` with a one-character separator. -/
def splitOnChar (c : Char) : List Char → List (List Char)
  | [] => [[]]
  | ch :: rest =>
    if ch = c then [] :: splitOnChar c rest
    else
      match splitOnChar c rest with
      | [] => [[ch]]
      | g :: gs => (ch :: g) :: gs

/-- The segments of `key.split('-')` as strings. -/
def keyParts (k : String) : List String :=
  (splitOnChar '-' k.data).map (fun g => String.mk g)

/-- Model of `const [userId, videoId] = key.split('-')` in `processCronJob`:
only the first two segments are kept; a missing second segment is the JS
value `undefined`, which later string interpolation renders as
`"undefined"`. -/
def splitKey (k : String) : String × String :=
  match keyParts k with
  | [] => ("undefined", "undefined")
  | [u] => (u, "undefined")
  | u :: v :: _ => (u, v)

/-- The key under which `processCronJob` commits the progress of bucket `k`. -/
def derivedKey (k : String) : String :=
  makeKey (splitKey k).1 (splitKey k).2

/-- The in-memory state of `StorageService`: the pending queue and the
committed progress table, both keyed by the composite key. -/
structure Store where
  queue : List (String × List QueueItem)
  progress : List (String × ProgressRecord)
deriving DecidableEq

/-- The field initializers of `StorageService`: two empty maps. -/
def emptyStore : Store := ⟨[], []⟩

/-- Model of `addToQueue`: build the item, append it to the bucket of
`` `${userId}-${videoId}` `` and return it.  `id`/`createdAt` stand for the
`Date.now()`-based id and the ISO timestamp. -/
def addToQueue (s : Store) (userId videoId : String) (progressSeconds : Rat)
    (id createdAt : String) : Store × QueueItem :=
  let queueItem : QueueItem := ⟨id, videoId, userId, progressSeconds, createdAt⟩
  let key := makeKey userId videoId
  let existing := (lookupA s.queue key).getD []
  ({ s with queue := insertA s.queue key (existing ++ [queueItem]) }, queueItem)

/-- Model of `getQueueItems`. -/
def getQueueItems (s : Store) (userId videoId : String) : List QueueItem :=
  (lookupA s.queue (makeKey userId videoId)).getD []

/-- Model of `getProgress`. -/
def getProgress (s : Store) (userId videoId : String) : Option ProgressRecord :=
  lookupA s.progress (makeKey userId videoId)

/-- Model of `setProgress`: unconditionally overwrite the committed row. -/
def setProgress (s : Store) (userId videoId : String) (furthestSeconds : Rat)
    (now : String) : Store × ProgressRecord :=
  let key := makeKey userId videoId
  let progressRecord : ProgressRecord := ⟨videoId, userId, furthestSeconds, now⟩
  ({ s with progress := insertA s.progress key progressRecord }, progressRecord)

/-- Model of `updateProgressIfHigher`: write through `setProgress` only when
the row is absent or `seconds` is strictly greater. -/
def updateProgressIfHigher (s : Store) (userId videoId : String) (seconds : Rat)
    (now : String) : Store × Bool :=
  match lookupA s.progress (makeKey userId videoId) with
  | none => ((setProgress s userId videoId seconds now).1, true)
  | some current =>
    if seconds > current.furthestSeconds then
      ((setProgress s userId videoId seconds now).1, true)
    else (s, false)

/-- `Math.max(...items.map(i => i.progressSeconds))`; the empty case is
unreachable because `processCronJob` skips empty buckets. -/
def listMax : List Rat → Rat
  | [] => 0
  | x :: xs => xs.foldl max x

/-- The result object of `processCronJob`. -/
structure CronResult where
  updated : Nat
  processed : Nat
deriving DecidableEq

/-- One iteration of the `for (const [key, items] of this.queue)` loop in
`processCronJob`: skip empty buckets, otherwise fold the bucket's maximum
into the committed table under the pair re-derived by `key.split('-')`,
counting a raise. -/
def cronStep (now : String) (acc : Store × Nat) (e : String × List QueueItem) :
    Store × Nat :=
  if e.2 = [] then acc
  else
    let maxProgress := listMax (e.2.map (fun i => i.progressSeconds))
    let r := updateProgressIfHigher acc.1 (splitKey e.1).1 (splitKey e.1).2
      maxProgress now
    (r.1, if r.2 then acc.2 + 1 else acc.2)

/-- Model of `processCronJob`: loop over the queue, then `queue.clear()`.
The returned `processed` counter is `0` because the source initializes
`let processed = 0` and never increments it. -/
def processCronJob (s : Store) (now : String) : Store × CronResult :=
  let r := s.queue.foldl (cronStep now) (s, 0)
  ({ queue := [], progress := r.1.progress }, { updated := r.2, processed := 0 })

/-- The diagnostic snapshot of `getStats` (the constant `dataPath` string,
an environment path, is omitted). -/
structure Stats where
  queueSize : Nat
  queueItems : Nat
  progressRecords : Nat
deriving DecidableEq

/-- Model of `getStats`. -/
def getStats (s : Store) : Stats :=
  { queueSize := s.queue.length
  , queueItems := ((s.queue.map (fun e => e.2)).flatten).length
  , progressRecords := s.progress.length }

/-- Model of `reset`: clear both collections. -/
def reset (_s : Store) : Store := ⟨[], []⟩

/-- The two durable files written by `saveToDisk`. -/
structure Disk where
  queueFile : Option (List (String × List QueueItem))
  progressFile : Option (List (String × ProgressRecord))
deriving DecidableEq

/-- A disk with neither file present. -/
def emptyDisk : Disk := ⟨none, none⟩

/-- Model of `saveToDisk`: the two `writeFileSync` calls may throw
(`queueWriteFails`, `progressWriteFails`); the surrounding `try/catch` logs
the error with `console.error` and returns normally, so the second component
(the error observable by the caller) is `none` on every path.  A failure of
the first write leaves both files untouched; a failure of the second leaves
the queue file already rewritten. -/
def saveToDisk (s : Store) (d : Disk) (queueWriteFails progressWriteFails : Bool) :
    Disk × Option String :=
  if queueWriteFails then (d, none)
  else if progressWriteFails then ({ d with queueFile := some s.queue }, none)
  else ({ queueFile := some s.queue, progressFile := some s.progress }, none)

/-- `addToQueue` followed by its `saveToDisk` call, returning the new
in-memory state, the new disk state, the stored item and the error surfaced
to the caller. -/
def addToQueueP (s : Store) (d : Disk) (userId videoId : String)
    (progressSeconds : Rat) (id createdAt : String) (qFail pFail : Bool) :
    Store × Disk × QueueItem × Option String :=
  let r := addToQueue s userId videoId progressSeconds id createdAt
  let w := saveToDisk r.1 d qFail pFail
  (r.1, w.1, r.2, w.2)

/-- `processCronJob` followed by its `saveToDisk` call. -/
def processCronJobP (s : Store) (d : Disk) (now : String) (qFail pFail : Bool) :
    Store × Disk × CronResult × Option String :=
  let r := processCronJob s now
  let w := saveToDisk r.1 d qFail pFail
  (r.1, w.1, r.2, w.2)

/-- `reset` followed by its `saveToDisk` call. -/
def resetP (s : Store) (d : Disk) (qFail pFail : Bool) :
    Store × Disk × Option String :=
  let r :=  reset s
  let w := saveToDisk r d qFail pFail
  (r, w.1, w.2)

/-- Model of `loadFromDisk` in the constructor.  For each file, `none` means
`existsSync` is false; `some (Except.error e)` means reading or
`JSON.parse` threw; `some (Except.ok m)` is the parsed map.  The `try`
block assigns the queue map first, then the progress map; any throw lands in
the `catch`, which resets both collections to empty. -/
def loadFromDisk
    (qf : Option (Except String (List (String × List QueueItem))))
    (pf : Option (Except String (List (String × ProgressRecord)))) : Store :=
  let attempt : Except String Store :=
    match qf with
    | some (Except.error e) => Except.error e
    | some (Except.ok q) =>
      match pf with
      | some (Except.error e) => Except.error e
      | some (Except.ok p) => Except.ok ⟨q, p⟩
      | none => Except.ok ⟨q, []⟩
    | none =>
      match pf with
      | some (Except.error e) => Except.error e
      | some (Except.ok p) => Except.ok ⟨[], p⟩
      | none => Except.ok ⟨[], []⟩
  match attempt with
  | Except.ok s => s
  | Except.error _ => ⟨[], []⟩

/-- Model of the `POST /api/progress/queue` route of
`src/backend/src/index.ts`: the Elysia body schema
`t.Number({ minimum: 0 })` rejects a body with `progressSeconds < 0` with a
validation error before the handler runs; otherwise the handler calls
`addToQueue`. -/
def postProgressQueue (s : Store) (userId videoId : String) (ps : Rat)
    (id createdAt : String) : Store × Option QueueItem :=
  if ps < 0 then (s, none)
  else
    let r := addToQueue s userId videoId ps id createdAt
    (r.1, some r.2)

/-- The committed row expected for a bucket after a merge pass: created with
the candidate when absent, raised to the candidate when strictly higher,
otherwise untouched. -/
def mergeExpected (old : Option ProgressRecord) (uv : String × String)
    (cand : Rat) (now : String) : Option ProgressRecord :=
  match old with
  | none => some ⟨uv.2, uv.1, cand, now⟩
  | some r =>
    if cand > r.furthestSeconds then some ⟨uv.2, uv.1, cand, now⟩ else some r

/-- Whether a merge pass counts bucket `e` as raised, judged against the
committed table `prog`. -/
def raisedFlag (prog : List (String × ProgressRecord))
    (e : String × List QueueItem) : Bool :=
  if e.2 = [] then false
  else
    match lookupA prog (derivedKey e.1) with
    | none => true
    | some r =>
      decide (listMax (e.2.map (fun i => i.progressSeconds)) > r.furthestSeconds)

/-- Joining char-list segments with a separator (inverse of `splitOnChar`). -/
def joinSep (c : Char) : List (List Char) → List Char
  | [] => []
  | [g] => g
  | g :: g' :: gs => g ++ c :: joinSep c (g' :: gs)

/-- A store holding one pending sample for `("u1", "v1")`. -/
def S2 : Store := (addToQueue emptyStore "u1" "v1" 5 "id1" "t1").1

/-- A store with a committed value of 50 for `("u1", "v1")`. -/
def S3 : Store := (setProgress emptyStore "u1" "v1" 50 "t1").1

/-- A store holding one pending sample for the hyphen-free pair
`("alice", "vid1")`. -/
def S7 : Store := (addToQueue emptyStore "alice" "vid1" 42 "idA" "t1").1

/-- A store holding one pending sample for `("u1", "yt-abc123")`, the
server's own demo videoId. -/
def S7x : Store := (addToQueue emptyStore "u1" "yt-abc123" 42 "id1" "t1").1

theorem lookupA_insertA {α : Type} (l : List (String × α)) (k : String) (v : α)
    (j : String) :
    lookupA (insertA l k v) j = if j = k then some v else lookupA l j := by
  induction l with
  | nil =>
    simp only [insertA, lookupA]
    by_cases h : k = j
    · simp [h]
    · have h2 : ¬(j = k) := fun hh => h hh.symm
      simp [h, h2]
  | cons p ps ih =>
    simp only [insertA]
    by_cases hp : p.1 = k
    · rw [if_pos hp]
      simp only [lookupA]
      by_cases hj : j = k
      · subst hj; simp
      · have hkj : ¬(k = j) := fun hh => hj hh.symm
        have hpj : ¬(p.1 = j) := fun hh => hj (hp.symm.trans hh).symm
        simp [hkj, hpj, hj]
    · rw [if_neg hp]
      simp only [lookupA]
      by_cases hpj : p.1 = j
      · have hjk : ¬(j = k) := fun hh => hp (hpj.trans hh)
        simp [hpj, hjk]
      · simp [hpj, ih]

/-- C1: the spec requires the composite key to be injective over
`(userId, videoId)`; the code's `` `${userId}-${videoId}` `` collides for
the distinct pairs `("a-b", "c")` and `("a", "b-c")`, and a sample enqueued
for the first pair lands in the second pair's queue bucket. -/
theorem C1_key_collision :
    makeKey "a-b" "c" = makeKey "a" "b-c" ∧
    (("a-b" : String), ("c" : String)) ≠ ("a", "b-c") ∧
    getQueueItems (addToQueue emptyStore "a-b" "c" 7 "id1" "t1").1 "a" "b-c" =
      [⟨"id1", "c", "a-b", 7, "t1"⟩] := by
  refine ⟨rfl, by decide, rfl⟩

/-- C2: `processCronJob` is specified to return the count of scanned keys
alongside the count of raised keys, but the `processed` counter in the code
is initialized to 0 and never incremented: it is 0 for every store, in
particular for `S2`, which has one key with a pending sample (the code
returns `{updated := 1, processed := 0}` there). -/
theorem C2_processed_never_counted :
    (∀ (s : Store) (now : String), (processCronJob s now).2.processed = 0) ∧
    (processCronJob S2 "t2").2 = ⟨1, 0⟩ := by
  refine ⟨fun s now => rfl, by decide⟩

/-- C3 counterexample: `setProgress` is a write path of the store into the
committed table that overwrites unconditionally: it replaces the committed
value 50 for `("u1", "v1")` with the strictly smaller value 10. -/
theorem C3_counterexample :
    getProgress S3 "u1" "v1" = some ⟨"v1", "u1", 50, "t1"⟩ ∧
    getProgress (setProgress S3 "u1" "v1" 10 "t2").1 "u1" "v1" =
      some ⟨"v1", "u1", 10, "t2"⟩ ∧
    (10 : Rat) < 50 := by
  refine ⟨by decide, by decide, by norm_num⟩

/-- C4 counterexample: with the persistence write failing after an enqueue,
the caller observes no error (the `try/catch` in `saveToDisk` logs and
swallows it), the in-memory state has advanced, and the disk is unchanged —
refuting the claim that the error is surfaced to the caller. -/
theorem C4_counterexample :
    (addToQueueP emptyStore emptyDisk "u1" "v1" 5 "id1" "t1" true true).2.2.2 =
      none ∧
    (addToQueueP emptyStore emptyDisk "u1" "v1" 5 "id1" "t1" true true).1.queue =
      [("u1-v1", [⟨"id1", "v1", "u1", 5, "t1"⟩])] ∧
    (addToQueueP emptyStore emptyDisk "u1" "v1" 5 "id1" "t1" true true).2.1 =
      emptyDisk := by
  refine ⟨rfl, by decide, rfl⟩

/-- C4 amended: when a persistence write fails after a state-mutating
operation (enqueue, merge, reset), the error is caught and logged inside
`saveToDisk` and never surfaced to the caller, while the in-memory state
keeps the mutation (no rollback). -/
theorem C4_swallowed_persistence_error (s : Store) (d : Disk)
    (userId videoId : String) (ps : Rat) (id createdAt now : String)
    (qFail pFail : Bool) :
    ((addToQueueP s d userId videoId ps id createdAt qFail pFail).2.2.2 = none ∧
      (addToQueueP s d userId videoId ps id createdAt qFail pFail).1 =
        (addToQueue s userId videoId ps id createdAt).1) ∧
    ((processCronJobP s d now qFail pFail).2.2.2 = none ∧
      (processCronJobP s d now qFail pFail).1 = (processCronJob s now).1) ∧
    ((resetP s d qFail pFail).2.2 = none ∧
      (resetP s d qFail pFail).1 = reset s) := by
  cases qFail <;> cases pFail <;> exact ⟨⟨rfl, rfl⟩, ⟨rfl, rfl⟩, ⟨rfl, rfl⟩⟩

/-- C5 counterexample: the store's `addToQueue` performs no validation: a
negative `progressSeconds` is accepted with no `ValidationError`, and the
queue is mutated. -/
theorem C5_counterexample :
    (addToQueue emptyStore "u1" "v1" (-5) "id1" "t1").1.queue =
      [("u1-v1", [⟨"id1", "v1", "u1", -5, "t1"⟩])] ∧
    (addToQueue emptyStore "u1" "v1" (-5) "id1" "t1").2 =
      ⟨"id1", "v1", "u1", -5, "t1"⟩ := by
  refine ⟨by decide, by decide⟩

/-- C5 amended: rejection of a negative `progressSeconds` happens in the API
layer's request schema, before the store is invoked (the store is left
unchanged and no item is stored); for `progressSeconds ≥ 0` the route calls
the store, and the store's own `addToQueue` appends unconditionally for
every rational input, with no upper bound. -/
theorem C5_validation_at_api_layer (s : Store) (userId videoId : String)
    (ps : Rat) (id createdAt : String) :
    (ps < 0 → postProgressQueue s userId videoId ps id createdAt = (s, none)) ∧
    (0 ≤ ps → postProgressQueue s userId videoId ps id createdAt =
      ((addToQueue s userId videoId ps id createdAt).1,
        some (addToQueue s userId videoId ps id createdAt).2)) ∧
    lookupA (addToQueue s userId videoId ps id createdAt).1.queue
        (makeKey userId videoId) =
      some ((lookupA s.queue (makeKey userId videoId)).getD [] ++
        [⟨id, videoId, userId, ps, createdAt⟩]) := by
  refine ⟨fun h => ?_, fun h => ?_, ?_⟩
  · simp [postProgressQueue, h]
  · simp [postProgressQueue, not_lt.mpr h]
  · simp [addToQueue, lookupA_insertA]

/-- Witness for C5: the route rejects `-1` without touching the store and
accepts `3` by delegating to `addToQueue`. -/
theorem C5_witness :
    postProgressQueue emptyStore "u1" "v1" (-1) "idA" "tA" =
      (emptyStore, none) ∧
    postProgressQueue emptyStore "u1" "v1" 3 "idA" "tA" =
      ((addToQueue emptyStore "u1" "v1" 3 "idA" "tA").1,
        some (addToQueue emptyStore "u1" "v1" 3 "idA" "tA").2) :=
  ⟨(C5_validation_at_api_layer emptyStore "u1" "v1" (-1) "idA" "tA").1
      (by norm_num),
    (C5_validation_at_api_layer emptyStore "u1" "v1" 3 "idA" "tA").2.1
      (by norm_num)⟩

/-- C6: merge is idempotent: running `processCronJob` twice with no enqueue
in between yields `updated = 0` on the second call and leaves the committed
table exactly as it was after the first call. -/
theorem C6_merge_idempotent (s : Store) (now1 now2 : String) :
    (processCronJob (processCronJob s now1).1 now2).2.updated = 0 ∧
    (processCronJob (processCronJob s now1).1 now2).1.progress =
      (processCronJob s now1).1.progress :=
  ⟨rfl, rfl⟩

/-- C8: after any merge pass the queue is fully drained: the pending queue
is empty, `getStats` reports 0 pending samples, and every key's bucket reads
back empty, regardless of which keys were raised. -/
theorem C8_queue_drained (s : Store) (now : String) :
    (processCronJob s now).1.queue = [] ∧
    (getStats (processCronJob s now).1).queueItems = 0 ∧
    ∀ userId videoId,
      getQueueItems (processCronJob s now).1 userId videoId = [] := by
  refine ⟨rfl, rfl, fun u v => rfl⟩

/-- C9: when deserialization of either durable file fails at startup, the
store falls back to both collections empty instead of failing, and every
subsequent read behaves as on an empty store. -/
theorem C9_corrupt_fallback
    (qf : Option (Except String (List (String × List QueueItem))))
    (pf : Option (Except String (List (String × ProgressRecord))))
    (h : (∃ e, qf = some (Except.error e)) ∨
      (∃ e, pf = some (Except.error e))) :
    loadFromDisk qf pf = emptyStore ∧
    (∀ userId videoId, getProgress (loadFromDisk qf pf) userId videoId = none) ∧
    (∀ userId videoId, getQueueItems (loadFromDisk qf pf) userId videoId = []) ∧
    getStats (loadFromDisk qf pf) = ⟨0, 0, 0⟩ := by
  have hempty : loadFromDisk qf pf = emptyStore := by
    rcases h with ⟨e, he⟩ | ⟨e, he⟩
    · subst he
      cases pf with
      | none => rfl
      | some r => cases r <;> rfl
    · subst he
      cases qf with
      | none => rfl
      | some r => cases r <;> rfl
  refine ⟨hempty, fun u v => ?_, fun u v => ?_, ?_⟩ <;> rw [hempty] <;> rfl

/-- Witness for C9: a corrupt queue file yields an empty store whose reads
all come back empty. -/
theorem derivedKey_eq (k : String) :
    derivedKey k = makeKey (splitKey k).1 (splitKey k).2 := rfl

theorem updateProgressIfHigher_queue (s : Store) (u v : String) (sec : Rat)
    (now : String) : (updateProgressIfHigher s u v sec now).1.queue = s.queue := by
  unfold updateProgressIfHigher
  cases lookupA s.progress (makeKey u v) with
  | none => rfl
  | some current =>
    dsimp only
    split_ifs <;> rfl

theorem upih_lookup_other (s : Store) (u v : String) (sec : Rat) (now : String)
    (j : String) (hj : j ≠ makeKey u v) :
    lookupA (updateProgressIfHigher s u v sec now).1.progress j =
      lookupA s.progress j := by
  unfold updateProgressIfHigher
  cases lookupA s.progress (makeKey u v) with
  | none => simp [setProgress, lookupA_insertA, hj]
  | some current =>
    dsimp only
    split_ifs with hc
    · simp [setProgress, lookupA_insertA, hj]
    · rfl

theorem upih_lookup_self (s : Store) (u v : String) (sec : Rat) (now : String) :
    lookupA (updateProgressIfHigher s u v sec now).1.progress (makeKey u v) =
      mergeExpected (lookupA s.progress (makeKey u v)) (u, v) sec now := by
  unfold updateProgressIfHigher mergeExpected
  cases h : lookupA s.progress (makeKey u v) with
  | none => simp [setProgress, lookupA_insertA]
  | some current =>
    dsimp only
    split_ifs with hc
    · simp [setProgress, lookupA_insertA]
    · exact h

theorem upih_flag (s : Store) (u v : String) (sec : Rat) (now : String) :
    (updateProgressIfHigher s u v sec now).2 =
      (match lookupA s.progress (makeKey u v) with
       | none => true
       | some current => decide (sec > current.furthestSeconds)) := by
  unfold updateProgressIfHigher
  cases lookupA s.progress (makeKey u v) with
  | none => rfl
  | some current =>
    dsimp only
    split_ifs with hc <;> simp [hc]

theorem upih_mono (s : Store) (u v : String) (sec : Rat) (now : String)
    (k : String) (r : ProgressRecord) (h : lookupA s.progress k = some r) :
    ∃ r', lookupA (updateProgressIfHigher s u v sec now).1.progress k = some r' ∧
      r.furthestSeconds ≤ r'.furthestSeconds := by
  by_cases hk : k = makeKey u v
  · subst hk
    rw [upih_lookup_self, h]
    unfold mergeExpected
    dsimp only
    split_ifs with hc
    · exact ⟨_, rfl, le_of_lt hc⟩
    · exact ⟨r, rfl, le_refl _⟩
  · rw [upih_lookup_other s u v sec now k hk, h]
    exact ⟨r, rfl, le_refl _⟩

theorem cronStep_lookup_other (now : String) (acc : Store × Nat)
    (e : String × List QueueItem) (j : String) (hj : j ≠ derivedKey e.1) :
    lookupA (cronStep now acc e).1.progress j = lookupA acc.1.progress j := by
  unfold cronStep
  split_ifs with he
  · rfl
  · exact upih_lookup_other acc.1 _ _ _ now j hj

theorem cronStep_lookup_self (now : String) (acc : Store × Nat)
    (e : String × List QueueItem) (hne : e.2 ≠ []) :
    lookupA (cronStep now acc e).1.progress (derivedKey e.1) =
      mergeExpected (lookupA acc.1.progress (derivedKey e.1)) (splitKey e.1)
        (listMax (e.2.map (fun i => i.progressSeconds))) now := by
  unfold cronStep
  rw [if_neg hne]
  exact upih_lookup_self acc.1 _ _ _ now

theorem cronStep_count (now : String) (acc : Store × Nat)
    (e : String × List QueueItem) :
    (cronStep now acc e).2 = acc.2 + (raisedFlag acc.1.progress e).toNat := by
  unfold cronStep raisedFlag
  split_ifs with he
  · simp
  · dsimp only
    rw [upih_flag]
    rw [derivedKey_eq]
    cases hl : lookupA acc.1.progress (makeKey (splitKey e.1).1 (splitKey e.1).2) with
    | none => simp
    | some cur =>
      by_cases hc :
          listMax (e.2.map (fun i => i.progressSeconds)) > cur.furthestSeconds <;>
        simp [hc]

theorem raisedFlag_congr (prog prog' : List (String × ProgressRecord))
    (e : String × List QueueItem)
    (h : lookupA prog' (derivedKey e.1) = lookupA prog (derivedKey e.1)) :
    raisedFlag prog' e = raisedFlag prog e := by
  unfold raisedFlag
  rw [h]

theorem fold_lookup_other (now : String) (q : List (String × List QueueItem)) :
    ∀ (acc : Store × Nat) (j : String), (∀ e ∈ q, j ≠ derivedKey e.1) →
      lookupA (q.foldl (cronStep now) acc).1.progress j =
        lookupA acc.1.progress j := by
  induction q with
  | nil => intro acc j _; rfl
  | cons e rest ih =>
    intro acc j h
    rw [List.foldl_cons]
    rw [ih _ j (fun e' he' => h e' (List.mem_cons_of_mem e he'))]
    exact cronStep_lookup_other now acc e j (h e (List.mem_cons_self e rest))

theorem cronStep_mono (now : String) (acc : Store × Nat)
    (e : String × List QueueItem) (k : String) (r : ProgressRecord)
    (h : lookupA acc.1.progress k = some r) :
    ∃ r', lookupA (cronStep now acc e).1.progress k = some r' ∧
      r.furthestSeconds ≤ r'.furthestSeconds := by
  unfold cronStep
  split_ifs with he
  · exact ⟨r, h, le_refl _⟩
  · exact upih_mono acc.1 _ _ _ now k r h

theorem fold_mono (now : String) (q : List (String × List QueueItem)) :
    ∀ (acc : Store × Nat) (k : String) (r : ProgressRecord),
      lookupA acc.1.progress k = some r →
      ∃ r', lookupA (q.foldl (cronStep now) acc).1.progress k = some r' ∧
        r.furthestSeconds ≤ r'.furthestSeconds := by
  induction q with
  | nil => intro acc k r h; exact ⟨r, h, le_refl _⟩
  | cons e rest ih =>
    intro acc k r h
    obtain ⟨r1, h1, hle1⟩ := cronStep_mono now acc e k r h
    obtain ⟨r2, h2, hle2⟩ := ih (cronStep now acc e) k r1 h1
    exact ⟨r2, by rw [List.foldl_cons]; exact h2, le_trans hle1 hle2⟩

/-- C3 amended: every write that goes through `updateProgressIfHigher` — in
particular every merge pass — never lowers a committed record: a committed
value 'r' for key `k` is still present afterwards with an equal-or-higher
`furthestSeconds`.  (The direct `setProgress` write path can lower a value;
see the counterexample.) -/
theorem C3_merge_never_lowers (s : Store) (now : String) (k : String)
    (r : ProgressRecord) (h : lookupA s.progress k = some r) :
    (∃ r', lookupA (processCronJob s now).1.progress k = some r' ∧
      r.furthestSeconds ≤ r'.furthestSeconds) ∧
    ∀ userId videoId seconds,
      ∃ r', lookupA
          (updateProgressIfHigher s userId videoId seconds now).1.progress k =
          some r' ∧
        r.furthestSeconds ≤ r'.furthestSeconds := by
  constructor
  · have hm := fold_mono now s.queue (s, 0) k r h
    simpa [processCronJob] using hm
  · intro u v sec
    exact upih_mono s u v sec now k r h

/-- Witness for C3: applying the monotonicity theorem to the store `S3`
holding a committed value of 50. -/
theorem C3_witness :
    (∃ r', lookupA (processCronJob S3 "t3").1.progress "u1-v1" = some r' ∧
      (⟨"v1", "u1", 50, "t1"⟩ : ProgressRecord).furthestSeconds ≤
        r'.furthestSeconds) ∧
    ∀ userId videoId seconds,
      ∃ r', lookupA
          (updateProgressIfHigher S3 userId videoId seconds "t3").1.progress
          "u1-v1" = some r' ∧
        (⟨"v1", "u1", 50, "t1"⟩ : ProgressRecord).furthestSeconds ≤
          r'.furthestSeconds :=
  C3_merge_never_lowers S3 "t3" "u1-v1" ⟨"v1", "u1", 50, "t1"⟩ (by decide)

theorem fold_count (now : String) (q : List (String × List QueueItem)) :
    ∀ acc : Store × Nat,
      ((q.map Prod.fst).Nodup) → (∀ e ∈ q, derivedKey e.1 = e.1) →
      (q.foldl (cronStep now) acc).2 =
        acc.2 + (q.map (fun e => (raisedFlag acc.1.progress e).toNat)).sum := by
  induction q with
  | nil => intro acc _ _; simp
  | cons e rest ih =>
    intro acc hnd hcl
    have hnd2 : (e.1 :: rest.map Prod.fst).Nodup := by simpa using hnd
    obtain ⟨hnotin, hnd'⟩ := List.nodup_cons.mp hnd2
    rw [List.foldl_cons]
    rw [ih (cronStep now acc e) hnd'
      (fun e' he' => hcl e' (List.mem_cons_of_mem _ he'))]
    rw [cronStep_count]
    have hflags : ∀ e' ∈ rest,
        raisedFlag (cronStep now acc e).1.progress e' =
          raisedFlag acc.1.progress e' := by
      intro e' he'
      apply raisedFlag_congr
      apply cronStep_lookup_other
      rw [hcl e' (List.mem_cons_of_mem _ he'), hcl e (List.mem_cons_self _ _)]
      intro hh
      exact hnotin (by rw [← hh]; exact List.mem_map_of_mem Prod.fst he')
    have hmapeq : rest.map
        (fun e' => (raisedFlag (cronStep now acc e).1.progress e').toNat) =
        rest.map (fun e' => (raisedFlag acc.1.progress e').toNat) :=
      List.map_congr_left (fun e' he' => by rw [hflags e' he'])
    rw [hmapeq, List.map_cons, List.sum_cons, Nat.add_assoc]

theorem fold_perkey (now : String) (q : List (String × List QueueItem)) :
    ∀ (acc : Store × Nat) (k : String) (items : List QueueItem),
      ((q.map Prod.fst).Nodup) → (∀ e ∈ q, derivedKey e.1 = e.1) →
      (k, items) ∈ q → items ≠ [] →
      lookupA (q.foldl (cronStep now) acc).1.progress k =
        mergeExpected (lookupA acc.1.progress k) (splitKey k)
          (listMax (items.map (fun i => i.progressSeconds))) now := by
  induction q with
  | nil => intro acc k items _ _ hmem _; cases hmem
  | cons e rest ih =>
    intro acc k items hnd hcl hmem hne
    have hnd2 : (e.1 :: rest.map Prod.fst).Nodup := by simpa using hnd
    obtain ⟨hnotin, hnd'⟩ := List.nodup_cons.mp hnd2
    rw [List.foldl_cons]
    rcases List.mem_cons.mp hmem with heq | hmem'
    · have heq' : e = (k, items) := heq.symm
      subst heq'
      rw [fold_lookup_other now rest _ k ?hother]
      case hother =>
        intro e' he'
        rw [hcl e' (List.mem_cons_of_mem _ he')]
        intro hh
        have hin : k ∈ rest.map Prod.fst := by
          rw [hh]
          exact List.mem_map_of_mem Prod.fst he'
        exact hnotin hin
      have hck : derivedKey (k, items).1 = (k, items).1 :=
        hcl (k, items) (List.mem_cons_self _ _)
      have hstep := cronStep_lookup_self now acc (k, items) hne
      rw [hck] at hstep
      exact hstep
    · have hkrest : k ∈ rest.map Prod.fst :=
        List.mem_map_of_mem Prod.fst hmem'
      have hek : derivedKey e.1 ≠ k := by
        rw [hcl e (List.mem_cons_self _ _)]
        intro hh
        exact hnotin (by rw [hh]; exact hkrest)
      rw [ih (cronStep now acc e) k items hnd'
        (fun e' he' => hcl e' (List.mem_cons_of_mem _ he')) hmem' hne]
      rw [cronStep_lookup_other now acc e k (Ne.symm hek)]

/-- C7 amended: for merge passes over a queue whose bucket keys are pairwise
distinct and each round-trip through the hyphen split (`derivedKey k = k`,
which holds whenever no `userId` or `videoId` in the queue contains a
hyphen): for each key with at least one pending sample the merge computes
the candidate as the maximum `progressSeconds` of the bucket and
creates/updates that key's committed record to the candidate exactly when
the record is absent or the candidate is strictly greater, leaving it
unmodified otherwise; `updated` counts exactly the raised keys.  For bucket
keys that do not round-trip, the same rule is instead applied to the pair
re-derived from the first two hyphen-separated segments (see C10). -/
theorem C7_merge_rule_clean_keys (s : Store) (now : String)
    (hnd : (s.queue.map Prod.fst).Nodup)
    (hcl : ∀ e ∈ s.queue, derivedKey e.1 = e.1) :
    (∀ k items, (k, items) ∈ s.queue → items ≠ [] →
      lookupA (processCronJob s now).1.progress k =
        mergeExpected (lookupA s.progress k) (splitKey k)
          (listMax (items.map (fun i => i.progressSeconds))) now) ∧
    (processCronJob s now).2.updated =
      (s.queue.map (fun e => (raisedFlag s.progress e).toNat)).sum := by
  constructor
  · intro k items hmem hne
    have hp := fold_perkey now s.queue (s, 0) k items hnd hcl hmem hne
    simpa [processCronJob] using hp
  · have hc := fold_count now s.queue (s, 0) hnd hcl
    simpa [processCronJob] using hc

/-- Witness for C7: on the store `S7` with a single clean bucket
`("alice", "vid1")` holding the sample 42 and no prior committed record,
the merge commits 42 for that key and reports one raised key. -/
theorem C7_witness :
    lookupA (processCronJob S7 "t2").1.progress "alice-vid1" =
      some ⟨"vid1", "alice", 42, "t2"⟩ ∧
    (processCronJob S7 "t2").2.updated = 1 := by
  have h := C7_merge_rule_clean_keys S7 "t2" (by decide) (by decide)
  constructor
  · have h1 := h.1 "alice-vid1" [⟨"idA", "vid1", "alice", 42, "t1"⟩]
      (by decide) (by decide)
    rw [h1]
    decide
  · rw [h.2]
    decide

/-- C7 counterexample: for the bucket key of `("u1", "yt-abc123")` — a
videoId containing a hyphen — the committed record for the key is absent and
the candidate is 42, yet the merge pass does not create that key's committed
record (it writes under the re-derived key `"u1-yt"` instead), refuting the
claim as stated. -/
theorem C7_counterexample :
    lookupA S7x.queue "u1-yt-abc123" =
      some [⟨"id1", "yt-abc123", "u1", 42, "t1"⟩] ∧
    lookupA S7x.progress "u1-yt-abc123" = none ∧
    lookupA (processCronJob S7x "t2").1.progress "u1-yt-abc123" = none := by
  refine ⟨by decide, by decide, by decide⟩

theorem C9_witness :
    loadFromDisk (some (Except.error "corrupt")) none = emptyStore ∧
    (∀ userId videoId,
      getProgress (loadFromDisk (some (Except.error "corrupt")) none)
        userId videoId = none) ∧
    (∀ userId videoId,
      getQueueItems (loadFromDisk (some (Except.error "corrupt")) none)
        userId videoId = []) ∧
    getStats (loadFromDisk (some (Except.error "corrupt")) none) = ⟨0, 0, 0⟩ :=
  C9_corrupt_fallback _ _ (Or.inl ⟨"corrupt", rfl⟩)

theorem splitOnChar_ne_nil (c : Char) (l : List Char) : splitOnChar c l ≠ [] := by
  cases l with
  | nil => simp [splitOnChar]
  | cons ch rest =>
    unfold splitOnChar
    split_ifs
    · simp
    · cases h : splitOnChar c rest <;> simp

theorem splitOnChar_not_mem (c : Char) (l : List Char) :
    ∀ g ∈ splitOnChar c l, c ∉ g := by
  induction l with
  | nil =>
    intro g hg
    simp [splitOnChar] at hg
    subst hg
    simp
  | cons ch rest ih =>
    intro g hg
    unfold splitOnChar at hg
    by_cases hc : ch = c
    · rw [if_pos hc] at hg
      rcases List.mem_cons.mp hg with h | h
      · subst h; simp
      · exact ih g h
    · rw [if_neg hc] at hg
      cases hsp : splitOnChar c rest with
      | nil =>
        rw [hsp] at hg
        simp at hg
        subst hg
        simp only [List.mem_singleton]
        exact fun hh => hc hh.symm
      | cons g0 gs =>
        rw [hsp] at hg
        rcases List.mem_cons.mp hg with h | h
        · subst h
          intro hmem
          rcases List.mem_cons.mp hmem with h2 | h2
          · exact hc h2.symm
          · exact ih g0 (by rw [hsp]; exact List.mem_cons_self _ _) h2
        · exact ih g (by rw [hsp]; exact List.mem_cons_of_mem _ h)

theorem splitOnChar_length_append (c : Char) (xs ys : List Char) :
    (splitOnChar c (xs ++ ys)).length + 1 =
      (splitOnChar c xs).length + (splitOnChar c ys).length := by
  induction xs with
  | nil =>
    simp only [List.nil_append]
    have h1 : splitOnChar c ([] : List Char) = [[]] := rfl
    rw [h1]
    simp [Nat.add_comm]
  | cons x xs ih =>
    by_cases hx : x = c
    · subst hx
      have e1 : splitOnChar x (x :: (xs ++ ys)) = [] :: splitOnChar x (xs ++ ys) := by
        simp [splitOnChar]
      have e2 : splitOnChar x (x :: xs) = [] :: splitOnChar x xs := by
        simp [splitOnChar]
      rw [List.cons_append, e1, e2, List.length_cons, List.length_cons]
      omega
    · simp only [List.cons_append, splitOnChar, if_neg hx]
      cases h1 : splitOnChar c (xs ++ ys) with
      | nil => exact absurd h1 (splitOnChar_ne_nil c _)
      | cons g gs =>
        cases h2 : splitOnChar c xs with
        | nil => exact absurd h2 (splitOnChar_ne_nil c _)
        | cons g' gs' =>
          simp only [List.length_cons]
          have h3 := ih
          rw [h1, h2] at h3
          simp only [List.length_cons] at h3
          omega

theorem two_le_splitOnChar_length (c : Char) (l : List Char) (h : c ∈ l) :
    2 ≤ (splitOnChar c l).length := by
  induction l with
  | nil => cases h
  | cons ch rest ih =>
    by_cases hc : ch = c
    · simp only [splitOnChar, if_pos hc, List.length_cons]
      have h1 : 0 < (splitOnChar c rest).length :=
        List.length_pos.mpr (splitOnChar_ne_nil c rest)
      omega
    · have hmem : c ∈ rest := by
        rcases List.mem_cons.mp h with h1 | h1
        · exact absurd h1.symm hc
        · exact h1
      simp only [splitOnChar, if_neg hc]
      cases hsp : splitOnChar c rest with
      | nil => exact absurd hsp (splitOnChar_ne_nil c rest)
      | cons g gs =>
        have h2 := ih hmem
        rw [hsp] at h2
        simpa using h2

theorem joinSep_splitOnChar (c : Char) (l : List Char) :
    joinSep c (splitOnChar c l) = l := by
  induction l with
  | nil => rfl
  | cons ch rest ih =>
    by_cases hc : ch = c
    · subst hc
      simp only [splitOnChar, if_pos rfl]
      cases hsp : splitOnChar ch rest with
      | nil => exact absurd hsp (splitOnChar_ne_nil ch rest)
      | cons g gs =>
        simp only [joinSep, List.nil_append]
        rw [← hsp, ih]
    · simp only [splitOnChar, if_neg hc]
      cases hsp : splitOnChar c rest with
      | nil => exact absurd hsp (splitOnChar_ne_nil c rest)
      | cons g gs =>
        cases gs with
        | nil =>
          simp only [joinSep]
          have h1 := ih
          rw [hsp] at h1
          simp only [joinSep] at h1
          rw [h1]
        | cons g2 gs2 =>
          simp only [joinSep, List.cons_append]
          have h1 := ih
          rw [hsp] at h1
          simp only [joinSep] at h1
          rw [h1]

theorem joinSep_length_ge (c : Char) (g0 g1 g2 : List Char)
    (gs : List (List Char)) :
    g0.length + g1.length + 2 ≤ (joinSep c (g0 :: g1 :: g2 :: gs)).length := by
  simp only [joinSep, List.length_append, List.length_cons]
  omega

theorem makeKey_data (u v : String) :
    (makeKey u v).data = u.data ++ '-' :: v.data := by
  cases u with
  | mk du =>
    cases v with
    | mk dv =>
      show (du ++ ['-']) ++ dv = du ++ '-' :: dv
      simp

/-- C10: for every `userId` and every `videoId` containing a hyphen (such as
the server's demo videoId `"yt-abc123"`), the merge pass re-derives the pair
by splitting the bucket key at hyphens and keeping the first two segments,
which yields a pair different from the enqueued one and a stored key
different from the bucket key; consequently, after enqueuing a sample from
an empty store and merging, `getProgress` for the original pair is `none`
while the committed record sits under the re-derived pair. -/
theorem C10_hyphen_split_misroutes (u v : String) (ps : Rat)
    (id cAt now : String) (hv : '-' ∈ v.data) :
    splitKey (makeKey u v) ≠ (u, v) ∧
    derivedKey (makeKey u v) ≠ makeKey u v ∧
    getProgress
      (processCronJob (addToQueue emptyStore u v ps id cAt).1 now).1 u v =
      none ∧
    getProgress
      (processCronJob (addToQueue emptyStore u v ps id cAt).1 now).1
      (splitKey (makeKey u v)).1 (splitKey (makeKey u v)).2 =
      some ⟨(splitKey (makeKey u v)).2, (splitKey (makeKey u v)).1, ps, now⟩ := by
  have hk : (makeKey u v).data = u.data ++ '-' :: v.data := makeKey_data u v
  have hlen : 3 ≤ (splitOnChar '-' (makeKey u v).data).length := by
    rw [hk]
    have h1 := splitOnChar_length_append '-' u.data ('-' :: v.data)
    have h2 : (splitOnChar '-' ('-' :: v.data)).length =
        (splitOnChar '-' v.data).length + 1 := by
      simp [splitOnChar]
    have h3 := two_le_splitOnChar_length '-' v.data hv
    have h4 : 0 < (splitOnChar '-' u.data).length :=
      List.length_pos.mpr (splitOnChar_ne_nil '-' u.data)
    omega
  obtain ⟨g0, g1, g2, grest, hgs⟩ : ∃ g0 g1 g2 grest,
      splitOnChar '-' (makeKey u v).data = g0 :: g1 :: g2 :: grest := by
    cases hsp : splitOnChar '-' (makeKey u v).data with
    | nil => rw [hsp] at hlen; simp at hlen
    | cons a l1 =>
      cases l1 with
      | nil => rw [hsp] at hlen; simp at hlen
      | cons b l2 =>
        cases l2 with
        | nil => rw [hsp] at hlen; simp at hlen
        | cons e l3 => exact ⟨a, b, e, l3, rfl⟩
  have hsplit : splitKey (makeKey u v) = (String.mk g0, String.mk g1) := by
    unfold splitKey keyParts
    rw [hgs]
    rfl
  have hg1mem : g1 ∈ splitOnChar '-' (makeKey u v).data := by
    rw [hgs]
    exact List.mem_cons_of_mem _ (List.mem_cons_self _ _)
  have hg1 : '-' ∉ g1 := splitOnChar_not_mem '-' _ g1 hg1mem
  have hpairne : splitKey (makeKey u v) ≠ (u, v) := by
    rw [hsplit]
    intro hh
    have hv2 : v = String.mk g1 := (congrArg Prod.snd hh).symm
    rw [hv2] at hv
    exact hg1 hv
  have hdk : derivedKey (makeKey u v) ≠ makeKey u v := by
    intro hh
    have hlen2 : (derivedKey (makeKey u v)).data.length =
        (makeKey u v).data.length := by rw [hh]
    have hd : (derivedKey (makeKey u v)).data = g0 ++ '-' :: g1 := by
      rw [derivedKey_eq, hsplit]
      exact makeKey_data (String.mk g0) (String.mk g1)
    have hjoin : joinSep '-' (g0 :: g1 :: g2 :: grest) = (makeKey u v).data := by
      rw [← hgs]
      exact joinSep_splitOnChar '-' _
    have hge := joinSep_length_ge '-' g0 g1 g2 grest
    rw [hjoin] at hge
    rw [hd] at hlen2
    simp only [List.length_append, List.length_cons] at hlen2
    omega
  have hq : (addToQueue emptyStore u v ps id cAt).1 =
      ⟨[(makeKey u v, [⟨id, v, u, ps, cAt⟩])], []⟩ := rfl
  have hm : (processCronJob
        (⟨[(makeKey u v, [⟨id, v, u, ps, cAt⟩])], []⟩ : Store) now).1.progress =
      [(derivedKey (makeKey u v),
        ⟨(splitKey (makeKey u v)).2, (splitKey (makeKey u v)).1, ps, now⟩)] := rfl
  refine ⟨hpairne, hdk, ?_, ?_⟩
  · rw [hq]
    unfold getProgress
    rw [hm]
    simp only [lookupA]
    rw [if_neg hdk]
  · rw [hq]
    unfold getProgress
    rw [hm]
    simp only [lookupA]
    rw [if_pos (derivedKey_eq (makeKey u v))]

/-- Witness for C10: the demo videoId `"yt-abc123"` is misrouted: after
enqueuing 42 for `("u1", "yt-abc123")` and merging, the original pair reads
back `none` and the value sits under the re-derived pair. -/
theorem C10_witness :
    splitKey (makeKey "u1" "yt-abc123") ≠ ("u1", "yt-abc123") ∧
    derivedKey (makeKey "u1" "yt-abc123") ≠ makeKey "u1" "yt-abc123" ∧
    getProgress
      (processCronJob (addToQueue emptyStore "u1" "yt-abc123" 42 "id1" "t1").1
        "t2").1 "u1" "yt-abc123" = none ∧
    getProgress
      (processCronJob (addToQueue emptyStore "u1" "yt-abc123" 42 "id1" "t1").1
        "t2").1
      (splitKey (makeKey "u1" "yt-abc123")).1
      (splitKey (makeKey "u1" "yt-abc123")).2 =
      some ⟨(splitKey (makeKey "u1" "yt-abc123")).2,
        (splitKey (makeKey "u1" "yt-abc123")).1, 42, "t2"⟩ :=
  C10_hyphen_split_misroutes "u1" "yt-abc123" 42 "id1" "t1" "t2" (by decide)

end Empath
